import Mathlib

/-!
Verification development for the IPL mock-auction application (`AuctionApp.py`).

The Python program keeps one global mutable auction state: the player catalog
`PLAYERS` (a dict keyed by player id), the franchise table `TEAMS` (a dict keyed
by team name), the session flags `AUCTION_STARTED`, `AUCTION_ORDER`,
`CURRENT_INDEX`, `CURRENT_BID`, and the outcome map `SOLD_PLAYERS`.

The embedding below mirrors that state in the structure `AppState`:
  - Python dicts become insertion-ordered association lists with
    overwrite-in-place update (`dictGet`, `dictSet`, `dictModify`), matching
    dict lookup / `d[k] = v` / in-place mutation of the stored object.
  - Python floats for money become exact rationals; the literal tolerances
    `1e-6` and the fixed increment `0.1` of the source are kept verbatim as
    `1/1000000` and `1/10`.
  - Route handlers that mutate the state become functions
    `AppState → ... → Except AErr AppState`; every `flash`+redirect early exit
    of the source becomes an `Except.error` with a name from the error
    taxonomy, and leaves the state unchanged (the Python handler returns
    before any mutation).
  - The per-client session cookie (`session["team_name"]`, `session["is_admin"]`)
    becomes explicit arguments `sessionTeam : Option String` / `isAdmin : Bool`.
  - `random.shuffle` becomes an explicit `shuffle` argument; theorems that need
    it assume only that `shuffle` permutes its input.
  - File parsing (CSV/PDF) is collaborator I/O; `load_players` receives the
    already-parsed record list and performs the catalog replacement and
    `reset_auction_state` of the source loaders.
-/

namespace AuctionApp

/-- A parsed roster row, before ids are assigned (the loaders assign
sequential ids starting at 1). -/
structure PlayerRec where
  set_no : Int
  set_code : String
  first_name : String
  surname : String
  country : String
  base_price : ℚ
  role : String
deriving DecidableEq, Repr

/-- `Player` dataclass of the source: id, tier (set) number and label, name
parts, country, base price in lakh, optional role. -/
structure Player where
  id : Nat
  set_no : Int
  set_code : String
  first_name : String
  surname : String
  country : String
  base_price : ℚ
  role : String
deriving DecidableEq, Repr

/-- `Player.full_name` property: `f"{first_name} {surname}".strip()`. -/
def Player.full_name (p : Player) : String :=
  (p.first_name ++ " " ++ p.surname).trim

/-- `Team` dataclass: name, total and remaining purse in crore, claimant,
squad of acquired player ids. -/
structure Team where
  name : String
  purse_total : ℚ
  purse_remaining : ℚ
  taken_by : Option String
  squad : List Nat
deriving DecidableEq, Repr

/-- `Bid` dataclass: player id, team name, amount in crore. -/
structure Bid where
  player_id : Nat
  team_name : String
  amount : ℚ
deriving DecidableEq, Repr

/-- An entry of the `SOLD_PLAYERS` dict: the literal dict
`{"player_name": ..., "team_name": ..., "price_cr": ...}` built by
`sell_player` / `unsold_player`. -/
structure SoldInfo where
  player_name : String
  team_name : Option String
  price_cr : ℚ
deriving DecidableEq, Repr

/-- The global mutable state of the application. -/
structure AppState where
  players : List (Nat × Player)
  teams : List (String × Team)
  auction_started : Bool
  auction_order : List Nat
  current_index : Int
  current_bid : Option Bid
  sold_players : List (Nat × SoldInfo)
deriving DecidableEq, Repr

/-! ### Dict operations (Python dict semantics on association lists) -/

/-- Dict lookup `d.get(k)` / `d[k]`. -/
def dictGet {α β : Type} [DecidableEq α] (k : α) : List (α × β) → Option β
  | [] => none
  | e :: rest => if e.1 = k then some e.2 else dictGet k rest

/-- Dict assignment `d[k] = v`: overwrite in place, or append a new binding. -/
def dictSet {α β : Type} [DecidableEq α] (k : α) (v : β) : List (α × β) → List (α × β)
  | [] => [(k, v)]
  | e :: rest => if e.1 = k then (k, v) :: rest else e :: dictSet k v rest

/-- In-place mutation of the object stored at key `k` (Python mutates the
stored object, leaving the key set unchanged). -/
def dictModify {α β : Type} [DecidableEq α] (k : α) (f : β → β) : List (α × β) → List (α × β)
  | [] => []
  | e :: rest => if e.1 = k then (e.1, f e.2) :: rest else e :: dictModify k f rest

/-! ### Initial state -/

/-- `DEFAULT_TEAMS`: the fixed configuration list of (name, purse) pairs. -/
def DEFAULT_TEAMS : List (String × ℚ) :=
  [("CSK", 100), ("MI", 100), ("RCB", 100), ("KKR", 100), ("SRH", 100),
   ("RR", 100), ("DC", 100), ("PBKS", 100), ("GT", 100), ("LSG", 100)]

/-- `init_teams()`: each configured team starts with full purse, no claimant
and an empty squad. -/
def init_teams_list : List (String × Team) :=
  DEFAULT_TEAMS.map (fun nt =>
    (nt.1, { name := nt.1, purse_total := nt.2, purse_remaining := nt.2,
             taken_by := none, squad := [] }))

/-- Process-start state: teams initialized from `DEFAULT_TEAMS`, no players
loaded, auction not started (`CURRENT_INDEX = -1`), no bid, no outcomes. -/
def initState : AppState :=
  { players := [], teams := init_teams_list, auction_started := false,
    auction_order := [], current_index := -1, current_bid := none,
    sold_players := [] }

/-! ### Error taxonomy (one name per distinct flash-and-redirect exit) -/

inductive AErr where
  | NotStarted
  | NoClaimant
  | NoActivePlayer
  | InvalidAmount
  | BidTooLow
  | InsufficientPurse
  | NoBid
  | EmptyCatalog
  | NotAuthorized
  | AlreadyStarted
  | AlreadyClaimed
  | InvalidFranchise
  | TeamKeyError
deriving DecidableEq, Repr

/-! ### Operations translated from the source -/

/-- `current_team()`: returns `TEAMS[session["team_name"]]` when the session
holds a team name that is a key of `TEAMS`. -/
def current_team (s : AppState) (sessionTeam : Option String) : Option Team :=
  match sessionTeam with
  | none => none
  | some n => dictGet n s.teams

/-- `get_current_player()`: `None` unless the auction is started and
`CURRENT_INDEX` is a valid index into `AUCTION_ORDER`; then
`PLAYERS.get(AUCTION_ORDER[CURRENT_INDEX])`. -/
def get_current_player (s : AppState) : Option Player :=
  if s.auction_started = false then none
  else if s.current_index < 0 then none
  else if (s.auction_order.length : Int) ≤ s.current_index then none
  else match s.auction_order.get? s.current_index.toNat with
    | none => none
    | some pid => dictGet pid s.players

/-- `reset_auction_state()`. -/
def reset_auction_state (s : AppState) : AppState :=
  { s with auction_started := false, auction_order := [], current_index := -1,
           current_bid := none, sold_players := [] }

/-- Catalog construction shared by `load_players_from_csv` and
`load_players_from_pdf`: sequential ids from 1 keyed into the `PLAYERS`
dict. -/
def buildCatalog (recs : List PlayerRec) : List (Nat × Player) :=
  recs.enum.map (fun e =>
    (e.1 + 1,
     { id := e.1 + 1, set_no := e.2.set_no, set_code := e.2.set_code,
       first_name := e.2.first_name, surname := e.2.surname,
       country := e.2.country, base_price := e.2.base_price,
       role := e.2.role }))

/-- `load_players_from_csv` / `load_players_from_pdf`, applied to the parsed
record list: replace `PLAYERS` wholesale, then `reset_auction_state()`. -/
def load_players (s : AppState) (recs : List PlayerRec) : AppState :=
  reset_auction_state { s with players := buildCatalog recs }

/-- `select_team` POST handler (claim a franchise): rejected when the auction
has started, the team is unknown, or the team is already taken; otherwise the
caller's previous team (if any) is released and the new one claimed. -/
def select_team (s : AppState) (sessionTeam : Option String)
    (teamName displayName : String) : Except AErr AppState :=
  if s.auction_started then .error .AlreadyStarted
  else match dictGet teamName s.teams with
    | none => .error .InvalidFranchise
    | some team =>
      if team.taken_by.isSome then .error .AlreadyClaimed
      else
        let s1 := match current_team s sessionTeam with
          | some old =>
            { s with teams :=
                dictModify old.name (fun t => { t with taken_by := none }) s.teams }
          | none => s
        let teams2 :=
          dictModify teamName (fun t => { t with taken_by := some displayName }) s1.teams
        .ok { s1 with teams := teams2 }

/-- `unselect_team` handler (release a franchise). -/
def unselect_team (s : AppState) (sessionTeam : Option String) :
    Except AErr AppState :=
  if s.auction_started then .error .AlreadyStarted
  else match current_team s sessionTeam with
    | none => .error .NoClaimant
    | some team =>
      let teams2 := dictModify team.name (fun t => { t with taken_by := none }) s.teams
      .ok { s with teams := teams2 }

/-- One team's purse update from the `admin_dashboard` POST handler:
`purse_total` is set unconditionally; `purse_remaining` is adjusted to the
same value only when the auction has not started. Unknown team names are
ignored (the handler iterates over `TEAMS`). -/
def edit_purse (s : AppState) (isAdmin : Bool) (teamName : String) (val : ℚ) :
    Except AErr AppState :=
  if isAdmin = false then .error .NotAuthorized
  else
    let teams2 := dictModify teamName
      (fun t => { t with purse_total := val, purse_remaining := if s.auction_started then t.purse_remaining else val })
      s.teams
    .ok { s with teams := teams2 }

/-- `build_auction_order()`: group `PLAYERS.values()` by `set_no`, iterate the
distinct set numbers in ascending order, shuffle within each set, and
concatenate the ids; then mark the session started at position 0 with no bid.
On an empty catalog it only clears `AUCTION_ORDER` (the guard in
`start_auction` prevents this case from being reached through the route). -/
def build_auction_order (shuffle : List Player → List Player) (s : AppState) :
    AppState :=
  let ps := s.players.map (·.2)
  if ps = [] then { s with auction_order := [] }
  else
    let keys := ((ps.map (·.set_no)).dedup).insertionSort (· ≤ ·)
    let order := keys.flatMap
      (fun k => (shuffle (ps.filter (fun p => p.set_no = k))).map (·.id))
    { s with auction_order := order, auction_started := true,
             current_index := 0, current_bid := none }

/-- `start_auction` route: admin-only; fails with "No players loaded" on an
empty catalog, leaving the state unchanged; otherwise builds the order. -/
def start_auction (s : AppState) (isAdmin : Bool)
    (shuffle : List Player → List Player) : Except AErr AppState :=
  if isAdmin = false then .error .NotAuthorized
  else if s.players = [] then .error .EmptyCatalog
  else .ok (build_auction_order shuffle s)

/-- `end_auction` route: admin-only; clears `AUCTION_STARTED`, resets
`CURRENT_INDEX` to the sentinel and drops the bid. Outcomes, squads and
purses are untouched. -/
def end_auction (s : AppState) (isAdmin : Bool) : Except AErr AppState :=
  if isAdmin = false then .error .NotAuthorized
  else .ok { s with auction_started := false, current_index := -1,
                    current_bid := none }

/-- `place_bid` route: the six checks of the source in order, then the leading
bid is replaced unconditionally. -/
def place_bid (s : AppState) (sessionTeam : Option String) (amount : ℚ) :
    Except AErr AppState :=
  if s.auction_started = false then .error .NotStarted
  else match current_team s sessionTeam with
    | none => .error .NoClaimant
    | some team =>
      match get_current_player s with
      | none => .error .NoActivePlayer
      | some player =>
        if amount ≤ 0 then .error .InvalidAmount
        else
          let min_price := player.base_price / 100
          let min_allowed := match s.current_bid with
            | some b => max min_price (b.amount + 1/10)
            | none => min_price
          if amount < min_allowed - 1/1000000 then .error .BidTooLow
          else if team.purse_remaining + 1/1000000 < amount then
            .error .InsufficientPurse
          else .ok { s with current_bid := some ⟨player.id, team.name, amount⟩ }

/-- `sell_player` route: admin-only, needs a live session, an active player
and a leading bid; debits the winning team, appends to its squad, records the
outcome (overwriting any previous entry for the player id), clears the bid
and advances. The `TEAMS[CURRENT_BID.team_name]` lookup raises `KeyError` in
Python when the name is unknown; that branch is `TeamKeyError` here. -/
def sell_player (s : AppState) (isAdmin : Bool) : Except AErr AppState :=
  if isAdmin = false then .error .NotAuthorized
  else if s.auction_started = false then .error .NotStarted
  else match get_current_player s with
    | none => .error .NoActivePlayer
    | some player =>
      match s.current_bid with
      | none => .error .NoBid
      | some bid =>
        match dictGet bid.team_name s.teams with
        | none => .error .TeamKeyError
        | some team =>
          let price_cr := bid.amount
          let teams2 := dictModify bid.team_name
            (fun t => { t with purse_remaining := t.purse_remaining - price_cr, squad := t.squad ++ [player.id] }) s.teams
          let sold2 := dictSet player.id
            ⟨player.full_name, some team.name, price_cr⟩ s.sold_players
          .ok { s with teams := teams2, sold_players := sold2,
                       current_bid := none,
                       current_index := s.current_index + 1 }

/-- `unsold_player` route: admin-only, needs a live session and an active
player; records a no-sale outcome, clears the bid and advances. -/
def unsold_player (s : AppState) (isAdmin : Bool) : Except AErr AppState :=
  if isAdmin = false then .error .NotAuthorized
  else if s.auction_started = false then .error .NotStarted
  else match get_current_player s with
    | none => .error .NoActivePlayer
    | some player =>
      let sold2 := dictSet player.id ⟨player.full_name, none, 0⟩ s.sold_players
      .ok { s with sold_players := sold2, current_bid := none,
                   current_index := s.current_index + 1 }

/-- `next_player` route (admin skip): admin-only and live-session only; does
not consult `get_current_player` at all — it clears the bid and advances
unconditionally. -/
def next_player (s : AppState) (isAdmin : Bool) : Except AErr AppState :=
  if isAdmin = false then .error .NotAuthorized
  else if s.auction_started = false then .error .NotStarted
  else .ok { s with current_bid := none, current_index := s.current_index + 1 }

/-! ### The core operation alphabet and reachability -/

/-- One core command, with the arguments the corresponding request would
carry. `startAuction` carries the within-tier shuffle chosen by
`random.shuffle`. -/
inductive Op where
  | selectTeam (sessionTeam : Option String) (teamName displayName : String)
  | unselectTeam (sessionTeam : Option String)
  | editPurse (teamName : String) (val : ℚ)
  | reload (recs : List PlayerRec)
  | startAuction (shuffle : List Player → List Player)
  | placeBid (sessionTeam : Option String) (amount : ℚ)
  | sellPlayer
  | unsoldPlayer
  | nextPlayer
  | endAuction

/-- A failed handler leaves the state unchanged. -/
def orState (r : Except AErr AppState) (s : AppState) : AppState :=
  match r with
  | .ok s' => s'
  | .error _ => s

/-- The state transformer of one core command (admin-only commands are taken
with the admin capability, since non-admin attempts never change state). -/
def applyOp (o : Op) (s : AppState) : AppState :=
  match o with
  | .selectTeam sess tn dn => orState (select_team s sess tn dn) s
  | .unselectTeam sess => orState (unselect_team s sess) s
  | .editPurse tn v => orState (edit_purse s true tn v) s
  | .reload recs => load_players s recs
  | .startAuction sh => orState (start_auction s true sh) s
  | .placeBid sess amt => orState (place_bid s sess amt) s
  | .sellPlayer => orState (sell_player s true) s
  | .unsoldPlayer => orState (unsold_player s true) s
  | .nextPlayer => orState (next_player s true) s
  | .endAuction => orState (end_auction s true) s

/-- States reachable from process start by core-operation sequences. -/
inductive Reachable : AppState → Prop
  | init : Reachable initState
  | step (o : Op) (s : AppState) : Reachable s → Reachable (applyOp o s)

/-! ### Dict lemmas -/

theorem dictGet_dictModify {α β : Type} [DecidableEq α] (k : α) (f : β → β)
    (d : List (α × β)) (n : α) :
    dictGet n (dictModify k f d) =
      if n = k then (dictGet n d).map f else dictGet n d := by
  induction d with
  | nil => by_cases h : n = k <;> simp [dictGet, dictModify, h]
  | cons e rest ih =>
    by_cases hek : e.1 = k
    · by_cases hnk : n = k
      · simp [dictGet, dictModify, hek, hnk]
      · have hkn : ¬ (k = n) := fun hc => hnk hc.symm
        simp [dictGet, dictModify, hek, hnk, hkn]
    · by_cases hen : e.1 = n
      · have hnk : ¬ (n = k) := fun hc => hek (hen.trans hc)
        simp [dictGet, dictModify, hek, hen, hnk]
      · simp [dictGet, dictModify, hek, hen, ih]

theorem dictGet_dictSet {α β : Type} [DecidableEq α] (k : α) (v : β)
    (d : List (α × β)) (n : α) :
    dictGet n (dictSet k v d) = if n = k then some v else dictGet n d := by
  induction d with
  | nil =>
    by_cases h : n = k
    · simp [dictGet, dictSet, h]
    · have hkn : ¬ (k = n) := fun hc => h hc.symm
      simp [dictGet, dictSet, h, hkn]
  | cons e rest ih =>
    by_cases hek : e.1 = k
    · by_cases hnk : n = k
      · simp [dictGet, dictSet, hek, hnk]
      · have hkn : ¬ (k = n) := fun hc => hnk hc.symm
        simp [dictGet, dictSet, hek, hnk, hkn]
    · by_cases hen : e.1 = n
      · have hnk : ¬ (n = k) := fun hc => hek (hen.trans hc)
        simp [dictGet, dictSet, hek, hen, hnk]
      · simp [dictGet, dictSet, hek, hen, ih]

theorem dictSet_of_get_none {α β : Type} [DecidableEq α] {k : α} (v : β)
    {d : List (α × β)} (h : dictGet k d = none) :
    dictSet k v d = d ++ [(k, v)] := by
  induction d with
  | nil => simp [dictSet]
  | cons e rest ih =>
    by_cases hek : e.1 = k
    · simp [dictGet, hek] at h
    · simp [dictGet, hek] at h
      simp [dictSet, hek, ih h]

/-! ### Inversion lemmas for the operations -/

theorem place_bid_ok {s : AppState} {sess : Option String} {amount : ℚ}
    {s' : AppState} (h : place_bid s sess amount = .ok s') :
    ∃ team player,
      s.auction_started = true ∧
      current_team s sess = some team ∧
      get_current_player s = some player ∧
      0 < amount ∧
      (∀ b, s.current_bid = some b → b.amount + 1/10 - 1/1000000 ≤ amount) ∧
      player.base_price / 100 - 1/1000000 ≤ amount ∧
      amount ≤ team.purse_remaining + 1/1000000 ∧
      s' = { s with current_bid := some ⟨player.id, team.name, amount⟩ } := by
  simp only [place_bid] at h
  split at h
  · exact absurd h (by simp)
  case isFalse hstart =>
  split at h
  · exact absurd h (by simp)
  case h_2 team hteam =>
  split at h
  · exact absurd h (by simp)
  case h_2 player hplayer =>
  split at h
  · exact absurd h (by simp)
  case isFalse hpos =>
  split at h
  · exact absurd h (by simp)
  case isFalse hlow =>
  split at h
  · exact absurd h (by simp)
  case isFalse hpurse =>
  refine ⟨team, player, ?_, hteam, hplayer, lt_of_not_le hpos, ?_, ?_, ?_, ?_⟩
  · cases hs : s.auction_started with
    | true => rfl
    | false => exact absurd hs hstart
  · intro b hb
    rw [hb] at hlow
    have h1 : ¬ (amount < max (player.base_price / 100) (b.amount + 1/10) - 1/1000000) := hlow
    have h2 : max (player.base_price / 100) (b.amount + 1/10) - 1/1000000 ≤ amount := le_of_not_lt h1
    calc b.amount + 1/10 - 1/1000000
        ≤ max (player.base_price / 100) (b.amount + 1/10) - 1/1000000 := by
          have := le_max_right (player.base_price / 100) (b.amount + 1/10)
          linarith
      _ ≤ amount := h2
  · cases hb : s.current_bid with
    | none =>
      rw [hb] at hlow
      have := le_of_not_lt hlow
      linarith
    | some b =>
      rw [hb] at hlow
      have h2 : max (player.base_price / 100) (b.amount + 1/10) - 1/1000000 ≤ amount := le_of_not_lt hlow
      have := le_max_left (player.base_price / 100) (b.amount + 1/10)
      linarith
  · exact le_of_not_lt hpurse
  · injection h with h'
    exact h'.symm

theorem select_team_ok {s : AppState} {sess : Option String} {tn dn : String}
    {s' : AppState} (h : select_team s sess tn dn = .ok s') :
    s.auction_started = false ∧
    ∃ teams2, s' = { s with teams := teams2 } ∧
      (∀ n t, dictGet n teams2 = some t → ∃ t0, dictGet n s.teams = some t0 ∧
        t.name = t0.name ∧ t.purse_total = t0.purse_total ∧
        t.purse_remaining = t0.purse_remaining ∧ t.squad = t0.squad) := by
  simp only [select_team] at h
  split at h
  · exact absurd h (by simp)
  case isFalse hstart =>
  split at h
  · exact absurd h (by simp)
  case h_2 team hteam =>
  split at h
  · exact absurd h (by simp)
  case isFalse htaken =>
  refine ⟨by simpa using hstart, ?_⟩
  split at h
  case h_1 old hold =>
    injection h with h'
    refine ⟨_, h'.symm, ?_⟩
    intro n t ht
    rw [dictGet_dictModify] at ht
    by_cases hn : n = tn
    · rw [if_pos hn] at ht
      rw [dictGet_dictModify] at ht
      by_cases hon : n = old.name
      · rw [if_pos hon] at ht
        obtain ⟨y, hy, hfy⟩ := Option.map_eq_some'.mp ht
        obtain ⟨t0, h0, hg⟩ := Option.map_eq_some'.mp hy
        subst hfy
        subst hg
        exact ⟨t0, h0, rfl, rfl, rfl, rfl⟩
      · rw [if_neg hon] at ht
        obtain ⟨t0, h0, hg⟩ := Option.map_eq_some'.mp ht
        subst hg
        exact ⟨t0, h0, rfl, rfl, rfl, rfl⟩
    · rw [if_neg hn] at ht
      rw [dictGet_dictModify] at ht
      by_cases hon : n = old.name
      · rw [if_pos hon] at ht
        obtain ⟨t0, h0, hg⟩ := Option.map_eq_some'.mp ht
        subst hg
        exact ⟨t0, h0, rfl, rfl, rfl, rfl⟩
      · rw [if_neg hon] at ht
        exact ⟨t, ht, rfl, rfl, rfl, rfl⟩
  case h_2 hold =>
    injection h with h'
    refine ⟨_, h'.symm, ?_⟩
    intro n t ht
    rw [dictGet_dictModify] at ht
    by_cases hn : n = tn
    · rw [if_pos hn] at ht
      obtain ⟨t0, h0, hg⟩ := Option.map_eq_some'.mp ht
      subst hg
      exact ⟨t0, h0, rfl, rfl, rfl, rfl⟩
    · rw [if_neg hn] at ht
      exact ⟨t, ht, rfl, rfl, rfl, rfl⟩

theorem unselect_team_ok {s : AppState} {sess : Option String} {s' : AppState}
    (h : unselect_team s sess = .ok s') :
    s.auction_started = false ∧
    ∃ teams2, s' = { s with teams := teams2 } ∧
      (∀ n t, dictGet n teams2 = some t → ∃ t0, dictGet n s.teams = some t0 ∧
        t.name = t0.name ∧ t.purse_total = t0.purse_total ∧
        t.purse_remaining = t0.purse_remaining ∧ t.squad = t0.squad) := by
  simp only [unselect_team] at h
  split at h
  · exact absurd h (by simp)
  case isFalse hstart =>
  split at h
  · exact absurd h (by simp)
  case h_2 team hteam =>
  injection h with h'
  refine ⟨by simpa using hstart, _, h'.symm, ?_⟩
  intro n t ht
  rw [dictGet_dictModify] at ht
  by_cases hn : n = team.name
  · rw [if_pos hn] at ht
    obtain ⟨t0, h0, hg⟩ := Option.map_eq_some'.mp ht
    subst hg
    exact ⟨t0, h0, rfl, rfl, rfl, rfl⟩
  · rw [if_neg hn] at ht
    exact ⟨t, ht, rfl, rfl, rfl, rfl⟩

theorem edit_purse_ok {s : AppState} {tn : String} {v : ℚ} {s' : AppState}
    (h : edit_purse s true tn v = .ok s') :
    s' = { s with teams := dictModify tn (fun t => { t with purse_total := v, purse_remaining := if s.auction_started then t.purse_remaining else v }) s.teams } := by
  simp only [edit_purse] at h
  injection h with h'
  exact h'.symm

theorem end_auction_ok {s : AppState} {s' : AppState}
    (h : end_auction s true = .ok s') :
    s' = { s with auction_started := false, current_index := -1,
                  current_bid := none } := by
  simp only [end_auction] at h
  injection h with h'
  exact h'.symm

theorem next_player_ok {s : AppState} {s' : AppState}
    (h : next_player s true = .ok s') :
    s.auction_started = true ∧
    s' = { s with current_bid := none,
                  current_index := s.current_index + 1 } := by
  simp only [next_player] at h
  rw [if_neg (by decide : ¬ (true = false))] at h
  split at h
  · exact absurd h (by simp)
  case isFalse hstart =>
  injection h with h'
  refine ⟨?_, h'.symm⟩
  cases hs : s.auction_started with
  | true => rfl
  | false => exact absurd hs hstart

theorem start_auction_ok {s : AppState} {sh : List Player → List Player}
    {s' : AppState} (h : start_auction s true sh = .ok s') :
    s.players ≠ [] ∧ s' = build_auction_order sh s := by
  simp only [start_auction] at h
  rw [if_neg (by decide : ¬ (true = false))] at h
  split at h
  · exact absurd h (by simp)
  case isFalse hne =>
  injection h with h'
  exact ⟨hne, h'.symm⟩

/-- Field content of `build_auction_order` on a non-empty catalog. -/
theorem build_auction_order_fields {sh : List Player → List Player}
    {s : AppState} (hne : s.players ≠ []) :
    build_auction_order sh s =
      { s with
        auction_order :=
          (((s.players.map (·.2)).map (·.set_no)).dedup.insertionSort (· ≤ ·)).flatMap
            (fun k => (sh ((s.players.map (·.2)).filter (fun p => p.set_no = k))).map (·.id)),
        auction_started := true, current_index := 0, current_bid := none } := by
  have hne' : s.players.map (·.2) ≠ [] := by
    intro hc
    exact hne (List.map_eq_nil_iff.mp hc)
  simp only [build_auction_order, if_neg hne']

theorem sell_player_ok {s : AppState} {s' : AppState}
    (h : sell_player s true = .ok s') :
    ∃ player bid team,
      s.auction_started = true ∧
      get_current_player s = some player ∧
      s.current_bid = some bid ∧
      dictGet bid.team_name s.teams = some team ∧
      s' = { s with teams := dictModify bid.team_name (fun t => { t with purse_remaining := t.purse_remaining - bid.amount, squad := t.squad ++ [player.id] }) s.teams, sold_players := dictSet player.id ⟨player.full_name, some team.name, bid.amount⟩ s.sold_players, current_bid := none, current_index := s.current_index + 1 } := by
  simp only [sell_player] at h
  rw [if_neg (by decide : ¬ (true = false))] at h
  split at h
  · exact absurd h (by simp)
  case isFalse hstart =>
  split at h
  · exact absurd h (by simp)
  case h_2 player hplayer =>
  split at h
  · exact absurd h (by simp)
  case h_2 bid hbid =>
  split at h
  · exact absurd h (by simp)
  case h_2 team hteam =>
  injection h with h'
  refine ⟨player, bid, team, ?_, hplayer, hbid, hteam, h'.symm⟩
  cases hs : s.auction_started with
  | true => rfl
  | false => exact absurd hs hstart

theorem unsold_player_ok {s : AppState} {s' : AppState}
    (h : unsold_player s true = .ok s') :
    ∃ player,
      s.auction_started = true ∧
      get_current_player s = some player ∧
      s' = { s with sold_players := dictSet player.id ⟨player.full_name, none, 0⟩ s.sold_players, current_bid := none, current_index := s.current_index + 1 } := by
  simp only [unsold_player] at h
  rw [if_neg (by decide : ¬ (true = false))] at h
  split at h
  · exact absurd h (by simp)
  case isFalse hstart =>
  split at h
  · exact absurd h (by simp)
  case h_2 player hplayer =>
  injection h with h'
  refine ⟨player, ?_, hplayer, h'.symm⟩
  cases hs : s.auction_started with
  | true => rfl
  | false => exact absurd hs hstart

/-- `get_current_player` depends only on the catalog and session fields. -/
theorem get_current_player_congr (s s' : AppState)
    (h1 : s'.players = s.players) (h2 : s'.auction_started = s.auction_started)
    (h3 : s'.auction_order = s.auction_order)
    (h4 : s'.current_index = s.current_index) :
    get_current_player s' = get_current_player s := by
  unfold get_current_player
  rw [h1, h2, h3, h4]

/-! ### The leading-bid consistency invariant

In every reachable state, a present leading bid refers to the player currently
under the hammer, its amount is positive and it met the base-price floor
(up to the `1e-6` tolerance) when it was accepted. This is what collapses the
`max` in the source's `min_allowed` to `leading bid + 0.1`. -/

def BidOk (s : AppState) : Prop :=
  ∀ b, s.current_bid = some b →
    0 < b.amount ∧ ∃ p, get_current_player s = some p ∧
      p.base_price / 100 - 1/1000000 ≤ b.amount ∧ b.player_id = p.id

theorem bidOk_of_none {s : AppState} (h : s.current_bid = none) : BidOk s := by
  intro b hb
  rw [h] at hb
  exact absurd hb (by simp)

theorem reachable_bidOk {s : AppState} (h : Reachable s) : BidOk s := by
  induction h with
  | init => exact bidOk_of_none rfl
  | step o s hr ih =>
    cases o with
    | selectTeam sess tn dn =>
      simp only [applyOp]
      cases hst : select_team s sess tn dn with
      | error e => exact ih
      | ok s2 =>
        obtain ⟨-, teams2, hs2, -⟩ := select_team_ok hst
        subst hs2
        simp only [orState]
        intro b hb
        obtain ⟨hpos, p, hp, hbase, hid⟩ := ih b hb
        refine ⟨hpos, p, ?_, hbase, hid⟩
        exact (get_current_player_congr s _ rfl rfl rfl rfl).trans hp
    | unselectTeam sess =>
      simp only [applyOp]
      cases hst : unselect_team s sess with
      | error e => exact ih
      | ok s2 =>
        obtain ⟨-, teams2, hs2, -⟩ := unselect_team_ok hst
        subst hs2
        simp only [orState]
        intro b hb
        obtain ⟨hpos, p, hp, hbase, hid⟩ := ih b hb
        refine ⟨hpos, p, ?_, hbase, hid⟩
        exact (get_current_player_congr s _ rfl rfl rfl rfl).trans hp
    | editPurse tn v =>
      simp only [applyOp]
      cases hst : edit_purse s true tn v with
      | error e => exact ih
      | ok s2 =>
        have hs2 := edit_purse_ok hst
        subst hs2
        simp only [orState]
        intro b hb
        obtain ⟨hpos, p, hp, hbase, hid⟩ := ih b hb
        refine ⟨hpos, p, ?_, hbase, hid⟩
        exact (get_current_player_congr s _ rfl rfl rfl rfl).trans hp
    | reload recs =>
      exact bidOk_of_none rfl
    | startAuction sh =>
      simp only [applyOp]
      cases hst : start_auction s true sh with
      | error e => exact ih
      | ok s2 =>
        obtain ⟨hne, hs2⟩ := start_auction_ok hst
        subst hs2
        rw [build_auction_order_fields hne]
        exact bidOk_of_none rfl
    | placeBid sess amt =>
      simp only [applyOp]
      cases hst : place_bid s sess amt with
      | error e => exact ih
      | ok s2 =>
        obtain ⟨team, player, -, hteam, hplayer, hpos, -, hbase, -, hs2⟩ :=
          place_bid_ok hst
        subst hs2
        simp only [orState]
        intro b hb
        simp only [Option.some.injEq] at hb
        refine ⟨by rw [← hb]; exact hpos, player, ?_, ?_, ?_⟩
        · exact (get_current_player_congr s _ rfl rfl rfl rfl).trans hplayer
        · rw [← hb]
          exact hbase
        · rw [← hb]
    | sellPlayer =>
      simp only [applyOp]
      cases hst : sell_player s true with
      | error e => exact ih
      | ok s2 =>
        obtain ⟨player, bid, team, -, -, -, -, hs2⟩ := sell_player_ok hst
        subst hs2
        exact bidOk_of_none rfl
    | unsoldPlayer =>
      simp only [applyOp]
      cases hst : unsold_player s true with
      | error e => exact ih
      | ok s2 =>
        obtain ⟨player, -, -, hs2⟩ := unsold_player_ok hst
        subst hs2
        exact bidOk_of_none rfl
    | nextPlayer =>
      simp only [applyOp]
      cases hst : next_player s true with
      | error e => exact ih
      | ok s2 =>
        obtain ⟨-, hs2⟩ := next_player_ok hst
        subst hs2
        exact bidOk_of_none rfl
    | endAuction =>
      simp only [applyOp]
      cases hst : end_auction s true with
      | error e => exact ih
      | ok s2 =>
        have hs2 := end_auction_ok hst
        subst hs2
        exact bidOk_of_none rfl

theorem started_of_current_player {s : AppState} {p : Player}
    (h : get_current_player s = some p) : s.auction_started = true := by
  unfold get_current_player at h
  cases hs : s.auction_started with
  | true => rfl
  | false => rw [hs] at h; simp at h

/-- With a consistent leading bid, the `max` in the source's `min_allowed`
collapses to `leading bid + 0.1`. -/
theorem place_bid_min_allowed {s : AppState} (hOk : BidOk s) {b : Bid}
    {p : Player} (hb : s.current_bid = some b)
    (hp : get_current_player s = some p) :
    max (p.base_price / 100) (b.amount + 1/10) = b.amount + 1/10 := by
  obtain ⟨-, p', hp', hbase, -⟩ := hOk b hb
  rw [hp] at hp'
  injection hp' with hpe
  subst hpe
  apply max_eq_right
  linarith

/-- Characterization of the `BidTooLow` rejection: with a positive amount, a
claimed team and an active player, the bid is rejected as too low exactly when
it is below the base price (no leader) or below leader + 0.1 (leader present),
in both cases up to the 1e-6 tolerance. -/
theorem place_bid_bidTooLow_iff {s : AppState} (hOk : BidOk s)
    {sess : Option String} {team : Team} {p : Player} (amount : ℚ)
    (hteam : current_team s sess = some team)
    (hp : get_current_player s = some p) (hpos : 0 < amount) :
    (place_bid s sess amount = .error .BidTooLow ↔
      amount < (match s.current_bid with | none => p.base_price / 100 | some b => b.amount + 1/10) - 1/1000000) := by
  have hstarted := started_of_current_player hp
  have hnpos : ¬ (amount ≤ 0) := not_le.mpr hpos
  cases hb : s.current_bid with
  | none =>
    show place_bid s sess amount = .error .BidTooLow ↔
      amount < p.base_price / 100 - 1/1000000
    simp only [place_bid, hstarted, Bool.true_eq_false, if_false, hteam, hp,
      hb, hnpos, ite_false]
    constructor
    · intro heq
      by_cases hlt : amount < p.base_price / 100 - 1/1000000
      · exact hlt
      · rw [if_neg hlt] at heq
        split at heq
        · exact absurd heq (by simp)
        · exact absurd heq (by simp)
    · intro hlt
      rw [if_pos hlt]
  | some b =>
    have hmax := place_bid_min_allowed hOk hb hp
    show place_bid s sess amount = .error .BidTooLow ↔
      amount < b.amount + 1/10 - 1/1000000
    simp only [place_bid, hstarted, Bool.true_eq_false, if_false, hteam, hp,
      hb, hnpos, ite_false, hmax]
    constructor
    · intro heq
      by_cases hlt : amount < b.amount + 1/10 - 1/1000000
      · exact hlt
      · rw [if_neg hlt] at heq
        split at heq
        · exact absurd heq (by simp)
        · exact absurd heq (by simp)
    · intro hlt
      rw [if_pos hlt]

/-! ### Sequences of bids on the same player -/

/-- Run a sequence of `place_bid` requests (session, amount); rejected calls
leave the state unchanged, exactly as in `applyOp`. -/
def foldBids (s : AppState) : List (Option String × ℚ) → AppState
  | [] => s
  | r :: rs => foldBids (applyOp (.placeBid r.1 r.2) s) rs

/-- The amounts of the accepted calls of the sequence, in order. -/
def acceptedAmounts (s : AppState) : List (Option String × ℚ) → List ℚ
  | [] => []
  | r :: rs =>
    match place_bid s r.1 r.2 with
    | .ok s2 => r.2 :: acceptedAmounts s2 rs
    | .error _ => acceptedAmounts s rs

/-- Every accepted bid strictly exceeds the previously stored leader. -/
theorem place_bid_gt_leader {s : AppState} {sess : Option String} {amount : ℚ}
    {s2 : AppState} (h : place_bid s sess amount = .ok s2) :
    ∀ b0, s.current_bid = some b0 → b0.amount < amount := by
  obtain ⟨team, player, -, -, -, -, hgt, -, -, -⟩ := place_bid_ok h
  intro b0 hb0
  have := hgt b0 hb0
  linarith

/-- After a bid sequence, either nothing was accepted and the leader is
untouched, or the leader's amount is the greatest accepted amount and exceeds
every leader that was stored before the sequence ran. -/
theorem foldBids_leader (rs : List (Option String × ℚ)) (s : AppState) :
    ((foldBids s rs).current_bid = s.current_bid ∧ acceptedAmounts s rs = []) ∨
    (∃ b, (foldBids s rs).current_bid = some b ∧
      b.amount ∈ acceptedAmounts s rs ∧
      (∀ a ∈ acceptedAmounts s rs, a ≤ b.amount) ∧
      (∀ b0, s.current_bid = some b0 → b0.amount < b.amount)) := by
  induction rs generalizing s with
  | nil => exact Or.inl ⟨rfl, rfl⟩
  | cons r rs ih =>
    cases hpb : place_bid s r.1 r.2 with
    | error e =>
      have hfold : foldBids s (r :: rs) = foldBids s rs := by
        simp only [foldBids, applyOp, hpb, orState]
      have hacc : acceptedAmounts s (r :: rs) = acceptedAmounts s rs := by
        simp only [acceptedAmounts, hpb]
      rw [hfold, hacc]
      exact ih s
    | ok s2 =>
      have hgt := place_bid_gt_leader hpb
      obtain ⟨team, player, -, -, -, -, -, -, -, hs2⟩ := place_bid_ok hpb
      have hfold : foldBids s (r :: rs) = foldBids s2 rs := by
        simp only [foldBids, applyOp, hpb, orState]
      have hacc : acceptedAmounts s (r :: rs) = r.2 :: acceptedAmounts s2 rs := by
        simp only [acceptedAmounts, hpb]
      have hbid2 : s2.current_bid = some ⟨player.id, team.name, r.2⟩ := by
        rw [hs2]
      rw [hfold, hacc]
      refine Or.inr ?_
      cases ih s2 with
      | inl h0 =>
        obtain ⟨hbid, haccnil⟩ := h0
        refine ⟨⟨player.id, team.name, r.2⟩, by rw [hbid, hbid2], ?_, ?_, ?_⟩
        · rw [haccnil]; exact List.mem_singleton.mpr rfl
        · intro a ha
          rw [haccnil] at ha
          rcases List.mem_cons.mp ha with h | h
          · exact le_of_eq h
          · exact absurd h (by simp)
        · intro b0 hb0
          exact hgt b0 hb0
      | inr h0 =>
        obtain ⟨b, hbid, hmem, hub, hgt2⟩ := h0
        have hr2 : r.2 < b.amount := by
          have := hgt2 ⟨player.id, team.name, r.2⟩ hbid2
          simpa using this
        refine ⟨b, hbid, List.mem_cons_of_mem _ hmem, ?_, ?_⟩
        · intro a ha
          rcases List.mem_cons.mp ha with h | h
          · rw [h]; exact le_of_lt hr2
          · exact hub a h
        · intro b0 hb0
          exact lt_trans (hgt b0 hb0) hr2

/-- Acceptance characterization of `place_bid`, stated with the source's
`min_allowed` expression (used to evaluate concrete scenarios, since rational
normalization does not reduce definitionally). -/
theorem place_bid_accepts {s : AppState} {sess : Option String} {team : Team}
    {p : Player} (amount : ℚ)
    (hteam : current_team s sess = some team)
    (hp : get_current_player s = some p) (hpos : 0 < amount)
    (hlow : ¬ (amount < (match s.current_bid with | some b => max (p.base_price / 100) (b.amount + 1/10) | none => p.base_price / 100) - 1/1000000))
    (hpurse : ¬ (team.purse_remaining + 1/1000000 < amount)) :
    place_bid s sess amount = .ok { s with current_bid := some ⟨p.id, team.name, amount⟩ } := by
  have hstarted := started_of_current_player hp
  have hnpos : ¬ (amount ≤ 0) := not_le.mpr hpos
  simp only [place_bid, hstarted, Bool.true_eq_false, if_false, hteam, hp,
    hnpos, ite_false, hlow, hpurse]

/-! ### Concrete scenario states used by witnesses and counterexamples -/

/-- One parsed roster row: tier 1, base price 200 lakh (= 2.0 crore). -/
def p1rec : PlayerRec :=
  { set_no := 1, set_code := "M1", first_name := "Test", surname := "Player",
    country := "IND", base_price := 200, role := "BAT" }

/-- The player the loader builds from `p1rec` (id 1). -/
def p1 : Player :=
  { id := 1, set_no := 1, set_code := "M1", first_name := "Test",
    surname := "Player", country := "IND", base_price := 200, role := "BAT" }

/-- The CSK franchise as configured at process start. -/
def cskInit : Team :=
  { name := "CSK", purse_total := 100, purse_remaining := 100,
    taken_by := none, squad := [] }

/-- State after loading a one-player catalog. -/
def reloadedState : AppState := applyOp (.reload [p1rec]) initState

/-- State after the admin starts the auction (identity shuffle). -/
def startedState : AppState := applyOp (.startAuction id) reloadedState

/-- State after CSK bids 2.0 crore on the current player. -/
def bidState : AppState := applyOp (.placeBid (some "CSK") 2) startedState

theorem reachable_reloadedState : Reachable reloadedState :=
  Reachable.step (.reload [p1rec]) initState Reachable.init

theorem reachable_startedState : Reachable startedState :=
  Reachable.step (.startAuction id) reloadedState reachable_reloadedState

theorem reachable_bidState : Reachable bidState :=
  Reachable.step (.placeBid (some "CSK") 2) startedState reachable_startedState

/-- The MI franchise as configured at process start. -/
def miInit : Team :=
  { name := "MI", purse_total := 100, purse_remaining := 100,
    taken_by := none, squad := [] }

/-- Evaluating CSK's opening 2.0-crore bid. -/
theorem place_bid_startedState :
    place_bid startedState (some "CSK") 2 =
      .ok { startedState with current_bid := some ⟨1, "CSK", 2⟩ } := by
  have h := place_bid_accepts 2
    (show current_team startedState (some "CSK") = some cskInit from rfl)
    (show get_current_player startedState = some p1 from rfl)
    (by norm_num)
    (show ¬ ((2:ℚ) < p1.base_price / 100 - 1/1000000) by norm_num [p1])
    (show ¬ (cskInit.purse_remaining + 1/1000000 < (2:ℚ)) by norm_num [cskInit])
  exact h

/-- `bidState` explicitly. -/
theorem bidState_eval :
    bidState = { startedState with current_bid := some ⟨1, "CSK", 2⟩ } := by
  show orState (place_bid startedState (some "CSK") 2) startedState = _
  rw [place_bid_startedState]
  rfl

/-! ### Claim C1 -/

/-- C1: for every `place_bid` call in a started session with a claimed
franchise, an active current player and a positive amount, the minimum
allowed amount is the base price in major units (`base_price / 100`) when no
leading bid exists, and the leading bid's amount plus the fixed increment 0.1
when one exists; the call is rejected with `BidTooLow` exactly when the
amount is below this minimum, compared with the 1e-6 tolerance. -/
theorem C1_min_bid_and_tolerance {s : AppState} (hs : Reachable s)
    {sess : Option String} {team : Team} {p : Player} (amount : ℚ)
    (hteam : current_team s sess = some team)
    (hp : get_current_player s = some p) (hpos : 0 < amount) :
    (place_bid s sess amount = .error .BidTooLow ↔
      amount < (match s.current_bid with | none => p.base_price / 100 | some b => b.amount + 1/10) - 1/1000000) :=
  place_bid_bidTooLow_iff (reachable_bidOk hs) amount hteam hp hpos

/-- C1 witness: in the concrete started session (base price 2.0 crore, no
leader), a bid of 1.0 is rejected with `BidTooLow`. -/
theorem C1_witness :
    place_bid startedState (some "CSK") 1 = .error .BidTooLow := by
  have h := C1_min_bid_and_tolerance reachable_startedState 1
    (show current_team startedState (some "CSK") = some cskInit from rfl)
    (show get_current_player startedState = some p1 from rfl)
    (by norm_num)
  exact h.mpr (show (1:ℚ) < p1.base_price / 100 - 1/1000000 by norm_num [p1])

/-! ### Claim C2 -/

/-- C2 counterexample: the claim says a call with amount ≤ leader + increment
is rejected with `BidTooLow`; but in the reachable state whose leader is
(CSK, 2.0), a bid of exactly 2.1 = leader + increment is accepted. -/
theorem C2_counterexample :
    Reachable bidState ∧
    bidState.current_bid = some ⟨1, "CSK", 2⟩ ∧
    (21/10 : ℚ) ≤ 2 + 1/10 ∧
    place_bid bidState (some "MI") (21/10) =
      .ok { bidState with current_bid := some ⟨1, "MI", 21/10⟩ } := by
  refine ⟨reachable_bidState, by rw [bidState_eval], by norm_num, ?_⟩
  rw [bidState_eval]
  have h := place_bid_accepts (21/10)
    (show current_team { startedState with current_bid := some ⟨1, "CSK", 2⟩ } (some "MI") = some miInit from rfl)
    (show get_current_player { startedState with current_bid := some ⟨1, "CSK", 2⟩ } = some p1 from rfl)
    (by norm_num)
    (show ¬ ((21/10 : ℚ) < max (p1.base_price / 100) ((⟨1, "CSK", 2⟩ : Bid).amount + 1/10) - 1/1000000) by norm_num [p1, max_def])
    (show ¬ (miInit.purse_remaining + 1/1000000 < (21/10 : ℚ)) by norm_num [miInit])
  exact h

/-- C2 (amended): after any sequence of `place_bid` calls from a reachable
state with no leading bid, the stored leader's amount equals the maximum of
the accepted amounts (and there is no leader exactly when nothing was
accepted); and a call with positive amount is rejected with `BidTooLow`
exactly when it is strictly below leader + 0.1 − 1e-6 — so amounts in
[leader + 0.1 − 1e-6, leader + 0.1], equality included, are not rejected. -/
theorem C2_amended_leader_max {s : AppState} (hs : Reachable s) :
    (s.current_bid = none → ∀ rs : List (Option String × ℚ),
      (acceptedAmounts s rs = [] → (foldBids s rs).current_bid = none) ∧
      (∀ b, (foldBids s rs).current_bid = some b →
        b.amount ∈ acceptedAmounts s rs ∧
        ∀ a ∈ acceptedAmounts s rs, a ≤ b.amount)) ∧
    (∀ (sess : Option String) (team : Team) (p : Player) (b : Bid) (amount : ℚ),
      current_team s sess = some team → get_current_player s = some p →
      s.current_bid = some b → 0 < amount →
      (place_bid s sess amount = .error .BidTooLow ↔
        amount < b.amount + 1/10 - 1/1000000)) := by
  constructor
  · intro hnone rs
    constructor
    · intro hacc
      cases foldBids_leader rs s with
      | inl h => rw [h.1, hnone]
      | inr h =>
        obtain ⟨b, -, hmem, -, -⟩ := h
        rw [hacc] at hmem
        exact absurd hmem (by simp)
    · intro b hb
      cases foldBids_leader rs s with
      | inl h =>
        rw [h.1, hnone] at hb
        exact absurd hb (by simp)
      | inr h =>
        obtain ⟨b', hb', hmem, hub, -⟩ := h
        rw [hb] at hb'
        injection hb' with hbe
        subst hbe
        exact ⟨hmem, hub⟩
  · intro sess team p b amount hteam hp hb hpos
    have h := place_bid_bidTooLow_iff (reachable_bidOk hs) amount hteam hp hpos
    simp only [hb] at h
    exact h

/-- C2 witness: running the single-call sequence [(CSK, 2.0)] from the
started session, 2.0 is among the accepted amounts and is the stored
leader's amount. -/
theorem C2_witness :
    (2 : ℚ) ∈ acceptedAmounts startedState [(some "CSK", 2)] := by
  have h := (C2_amended_leader_max reachable_startedState).1 rfl [(some "CSK", 2)]
  have hb : (foldBids startedState [(some "CSK", 2)]).current_bid = some ⟨1, "CSK", 2⟩ := by
    show bidState.current_bid = some ⟨1, "CSK", 2⟩
    rw [bidState_eval]
  exact (h.2 ⟨1, "CSK", 2⟩ hb).1

/-! ### Claim C8 -/

/-- C8: the admin skip (`next_player`) never consults the current player: in
every started session — the position may already be at or past the end of the
order — it succeeds, clears the leading bid and increments the position by
one. -/
theorem C8_skip_unconditional (s : AppState) (h : s.auction_started = true) :
    next_player s true =
      .ok { s with current_bid := none, current_index := s.current_index + 1 } := by
  unfold next_player
  rw [if_neg (by decide : ¬ (true = false)),
      if_neg (show ¬ (s.auction_started = false) by rw [h]; decide)]

/-- A started session whose position (5) is already past the end of its
one-element order. -/
def skipState : AppState :=
  { initState with auction_started := true, auction_order := [1], current_index := 5 }

/-- C8 witness: skipping in the past-the-end state succeeds and moves the
position further beyond the end, with no `NoActivePlayer` failure. -/
theorem C8_witness :
    next_player skipState true =
      .ok { skipState with current_bid := none, current_index := skipState.current_index + 1 } ∧
    (skipState.auction_order.length : Int) ≤ skipState.current_index :=
  ⟨C8_skip_unconditional skipState rfl, by decide⟩

/-! ### Claim C9 -/

/-- C9: a franchise may outbid itself — with the leading bid held by the
caller's own team, a new bid meeting leader + 0.1 and within the remaining
purse is accepted and replaces the caller's own leading bid. -/
theorem C9_self_outbid {s : AppState} (hs : Reachable s) {F : String}
    {team : Team} {p : Player} {b : Bid} (amount : ℚ)
    (hteam : current_team s (some F) = some team)
    (hp : get_current_player s = some p)
    (hb : s.current_bid = some b) (hsame : b.team_name = team.name)
    (hmin : b.amount + 1/10 ≤ amount)
    (hpurse : amount ≤ team.purse_remaining) :
    place_bid s (some F) amount =
      .ok { s with current_bid := some ⟨p.id, team.name, amount⟩ } := by
  have hOk := reachable_bidOk hs
  have hstarted := started_of_current_player hp
  have hmax := place_bid_min_allowed hOk hb hp
  obtain ⟨hbpos, -⟩ := hOk b hb
  have hpos : 0 < amount := by linarith
  have hnpos : ¬ (amount ≤ 0) := not_le.mpr hpos
  have hnlt : ¬ (amount < b.amount + 1/10 - 1/1000000) := by
    push_neg
    linarith
  have hnp : ¬ (team.purse_remaining + 1/1000000 < amount) := by
    push_neg
    linarith
  simp only [place_bid, hstarted, Bool.true_eq_false, if_false, hteam, hp, hb,
    hmax, hnpos, ite_false, hnlt, hnp]

/-- C9 witness: CSK holds the leading bid (2.0) and outbids itself with 2.1;
the call succeeds and replaces CSK's own leading bid. -/
theorem C9_witness :
    place_bid bidState (some "CSK") (21/10) =
      .ok { bidState with current_bid := some ⟨1, "CSK", 21/10⟩ } := by
  have h := C9_self_outbid reachable_bidState (21/10)
    (show current_team bidState (some "CSK") = some cskInit by rw [bidState_eval]; rfl)
    (show get_current_player bidState = some p1 by rw [bidState_eval]; rfl)
    (show bidState.current_bid = some ⟨1, "CSK", 2⟩ by rw [bidState_eval])
    rfl
    (show (⟨1, "CSK", 2⟩ : Bid).amount + 1/10 ≤ (21/10 : ℚ) by norm_num)
    (show (21/10 : ℚ) ≤ cskInit.purse_remaining by norm_num [cskInit])
  exact h

/-! ### Claim C3 -/

/-- Symbolic evaluation of a successful sale. -/
theorem sell_player_accepts {s : AppState} {p : Player} {b : Bid} {team : Team}
    (hst : s.auction_started = true)
    (hp : get_current_player s = some p) (hb : s.current_bid = some b)
    (ht : dictGet b.team_name s.teams = some team) :
    sell_player s true = .ok { s with teams := dictModify b.team_name (fun t => { t with purse_remaining := t.purse_remaining - b.amount, squad := t.squad ++ [p.id] }) s.teams, sold_players := dictSet p.id ⟨p.full_name, some team.name, b.amount⟩ s.sold_players, current_bid := none, current_index := s.current_index + 1 } := by
  simp only [sell_player, hst, Bool.true_eq_false, if_false, hp, hb, ht]

/-- Past the end of the order there is no current player. -/
theorem get_current_player_none_of_past {t : AppState}
    (hlen : (t.auction_order.length : Int) ≤ t.current_index) :
    get_current_player t = none := by
  unfold get_current_player
  by_cases h1 : t.auction_started = false
  · rw [if_pos h1]
  · rw [if_neg h1]
    by_cases h2 : t.current_index < 0
    · rw [if_pos h2]
    · rw [if_neg h2, if_pos hlen]

/-- C3: when `confirm_sale` (`sell_player`) succeeds once, an immediately
repeated call fails — with `NoActivePlayer` when the advanced position has no
player (in particular when it is past the end of the order), and with `NoBid`
when a player is present, because the leading bid was cleared; the failing
call performs no state change, so no purse, squad or outcome is touched
twice. -/
theorem C3_double_sell_fails {s s1 : AppState}
    (h : sell_player s true = .ok s1) :
    (sell_player s1 true = .error .NoActivePlayer ∨
     sell_player s1 true = .error .NoBid) ∧
    ((s1.auction_order.length : Int) ≤ s1.current_index →
      sell_player s1 true = .error .NoActivePlayer) ∧
    (∀ p, get_current_player s1 = some p →
      sell_player s1 true = .error .NoBid) := by
  obtain ⟨player, bid, team, hst, hgp, hbid, hteamg, hs1⟩ := sell_player_ok h
  have hst1 : s1.auction_started = true := by rw [hs1]; exact hst
  have hb1 : s1.current_bid = none := by rw [hs1]
  have hgpnone : get_current_player s1 = none →
      sell_player s1 true = .error .NoActivePlayer := by
    intro hgp1
    simp only [sell_player, hst1, Bool.true_eq_false, if_false, hgp1]
  have hgpsome : ∀ p, get_current_player s1 = some p →
      sell_player s1 true = .error .NoBid := by
    intro p hp
    simp only [sell_player, hst1, Bool.true_eq_false, if_false, hp, hb1]
  refine ⟨?_, ?_, hgpsome⟩
  · cases hgp1 : get_current_player s1 with
    | none => exact Or.inl (hgpnone hgp1)
    | some p => exact Or.inr (hgpsome p hgp1)
  · intro hlen
    exact hgpnone (get_current_player_none_of_past hlen)

/-- The concrete leading-bid state written out explicitly. -/
def bidStateX : AppState := { startedState with current_bid := some ⟨1, "CSK", 2⟩ }

/-- State after selling the current player to CSK at 2.0 crore. -/
def soldState : AppState := { bidStateX with teams := dictModify "CSK" (fun t => { t with purse_remaining := t.purse_remaining - 2, squad := t.squad ++ [1] }) bidStateX.teams, sold_players := dictSet 1 ⟨p1.full_name, some "CSK", 2⟩ bidStateX.sold_players, current_bid := none, current_index := bidStateX.current_index + 1 }

theorem sell_player_bidStateX : sell_player bidStateX true = .ok soldState := by
  have h := sell_player_accepts
    (show bidStateX.auction_started = true from rfl)
    (show get_current_player bidStateX = some p1 from rfl)
    (show bidStateX.current_bid = some ⟨1, "CSK", 2⟩ from rfl)
    (show dictGet (⟨1, "CSK", 2⟩ : Bid).team_name bidStateX.teams = some cskInit from rfl)
  exact h

/-- C3 witness: selling the only player of the order succeeds; the repeated
call fails with `NoActivePlayer` because the position stepped past the end. -/
theorem C3_witness :
    sell_player soldState true = .error .NoActivePlayer := by
  have h := C3_double_sell_fails sell_player_bidStateX
  exact h.2.1 (by decide)

/-! ### Claim C7 -/

/-- C7: reloading the catalog replaces the player list and unconditionally
resets the session — `started = false`, empty order, sentinel position `-1`,
no leading bid — and empties the outcome map, while the franchise table
(purses, claimants, squads) is left exactly as it was. -/
theorem C7_reload_resets_session (s : AppState) (recs : List PlayerRec) :
    load_players s recs =
      { players := buildCatalog recs, teams := s.teams,
        auction_started := false, auction_order := [], current_index := -1,
        current_bid := none, sold_players := [] } := rfl

/-! ### Claim C10 -/

/-- C10: starting a new auction only rebuilds the order and resets
started/position/bid — outcomes, squads and spent purses from a previous run
persist; and a sale unconditionally debits the winning franchise and writes
the player's outcome entry (overwriting any entry from a previous run). -/
theorem C10_restart_frame_and_resell :
    (∀ (s : AppState) (sh : List Player → List Player) (s2 : AppState),
      start_auction s true sh = .ok s2 →
      s2.sold_players = s.sold_players ∧ s2.teams = s.teams ∧
      s2.players = s.players ∧ s2.auction_started = true ∧
      s2.current_index = 0 ∧ s2.current_bid = none) ∧
    (∀ (s : AppState) (p : Player) (b : Bid) (team : Team) (s2 : AppState),
      sell_player s true = .ok s2 → get_current_player s = some p →
      s.current_bid = some b → dictGet b.team_name s.teams = some team →
      s2.sold_players = dictSet p.id ⟨p.full_name, some team.name, b.amount⟩ s.sold_players ∧
      dictGet b.team_name s2.teams = some { team with purse_remaining := team.purse_remaining - b.amount, squad := team.squad ++ [p.id] }) := by
  constructor
  · intro s sh s2 h
    obtain ⟨hne, hs2⟩ := start_auction_ok h
    rw [hs2, build_auction_order_fields hne]
    exact ⟨rfl, rfl, rfl, rfl, rfl, rfl⟩
  · intro s p b team s2 h hgp hb ht
    obtain ⟨p', b', team', -, hgp', hb', ht', hs2⟩ := sell_player_ok h
    rw [hgp] at hgp'
    injection hgp' with hpe
    rw [hb] at hb'
    injection hb' with hbe
    subst hpe
    subst hbe
    rw [ht] at ht'
    injection ht' with hte
    subst hte
    constructor
    · rw [hs2]
    · rw [hs2]
      show dictGet b.team_name (dictModify b.team_name _ s.teams) = _
      rw [dictGet_dictModify, if_pos rfl, ht]
      rfl

/-- State after the admin ends the auction following the CSK sale. -/
def endState : AppState := { soldState with auction_started := false, current_index := -1, current_bid := none }

/-- State after the admin starts a second auction over the same catalog. -/
def restartState : AppState := applyOp (.startAuction id) endState

/-- MI's leading bid of 2.0 on the re-auctioned player. -/
def bidState2 : AppState := { restartState with current_bid := some ⟨1, "MI", 2⟩ }

/-- The MI franchise as stored after the first (CSK) sale. -/
def miAfterCsk : Team :=
  { name := "MI", purse_total := 100, purse_remaining := 100, taken_by := none, squad := [] }

/-- C10 witness: restarting after the first sale keeps the outcome map and
the team table (including CSK's debit); the re-sale of player 1 to MI
succeeds, overwrites player 1's outcome entry and debits MI. -/
theorem C10_witness :
    (restartState.sold_players = endState.sold_players ∧
     restartState.teams = endState.teams) ∧
    dictGet 1 bidState2.sold_players = some ⟨p1.full_name, some "CSK", 2⟩ ∧
    (∀ s2, sell_player bidState2 true = .ok s2 →
      s2.sold_players = dictSet 1 ⟨p1.full_name, some "MI", 2⟩ bidState2.sold_players) := by
  have hstart : start_auction endState true id = .ok restartState := rfl
  have h1 := C10_restart_frame_and_resell.1 endState id restartState hstart
  refine ⟨⟨h1.1, h1.2.1⟩, rfl, ?_⟩
  intro s2 h
  have h2 := C10_restart_frame_and_resell.2 bidState2 p1 ⟨1, "MI", 2⟩ miAfterCsk s2 h
    (show get_current_player bidState2 = some p1 from rfl)
    rfl
    (show dictGet "MI" bidState2.teams = some miAfterCsk from rfl)
  exact h2.1

/-! ### Claim C5: the order builder -/

/-- Concatenating, over a duplicate-free covering key list, the sublists of
`ps` carrying each key yields a permutation of `ps`. -/
theorem flatMap_filter_perm (ps : List Player) (ks : List Int)
    (hnd : ks.Nodup) (hcov : ∀ p ∈ ps, p.set_no ∈ ks) :
    (ks.flatMap (fun k => ps.filter (fun p => p.set_no = k))).Perm ps := by
  induction ks generalizing ps with
  | nil =>
    cases ps with
    | nil => simp
    | cons p rest => exact absurd (hcov p (by simp)) (by simp)
  | cons k ks ih =>
    rw [List.flatMap_cons]
    have hnotmem : k ∉ ks := (List.nodup_cons.mp hnd).1
    have hndtail : ks.Nodup := (List.nodup_cons.mp hnd).2
    have hswap : ∀ k' ∈ ks, ps.filter (fun p => p.set_no = k') =
        (ps.filter (fun p => !(decide (p.set_no = k)))).filter (fun p => p.set_no = k') := by
      intro k' hk'
      have hkk : ¬ (k' = k) := fun he => hnotmem (he ▸ hk')
      rw [List.filter_filter]
      apply List.filter_congr
      intro p hp
      by_cases h : p.set_no = k'
      · have hk0 : ¬ (p.set_no = k) := by
          rw [h]
          exact hkk
        simp [h, hk0, hkk]
      · simp [h]
    have hcong : ks.flatMap (fun k' => ps.filter (fun p => p.set_no = k')) =
        ks.flatMap (fun k' => (ps.filter (fun p => !(decide (p.set_no = k)))).filter (fun p => p.set_no = k')) := by
      rw [List.flatMap_def, List.flatMap_def]
      congr 1
      exact List.map_congr_left hswap
    have hperm2 : (ks.flatMap (fun k' => (ps.filter (fun p => !(decide (p.set_no = k)))).filter (fun p => p.set_no = k'))).Perm
        (ps.filter (fun p => !(decide (p.set_no = k)))) := by
      apply ih
      · exact hndtail
      · intro p hp
        have hmem := List.mem_filter.mp hp
        have hcv := hcov p hmem.1
        have hkne : ¬ (p.set_no = k) := by simpa using hmem.2
        rcases List.mem_cons.mp hcv with h | h
        · exact absurd h hkne
        · exact h
    have hfinal := List.filter_append_perm (fun p => decide (p.set_no = k)) ps
    rw [hcong]
    exact (List.Perm.append_left _ hperm2).trans hfinal

/-- Pointwise permutations lift to `flatMap`. -/
theorem flatMap_perm_of_forall (ks : List Int) (f g : Int → List Player)
    (h : ∀ k ∈ ks, (f k).Perm (g k)) :
    (ks.flatMap f).Perm (ks.flatMap g) := by
  induction ks with
  | nil => exact List.Perm.refl _
  | cons k ks ih =>
    rw [List.flatMap_cons, List.flatMap_cons]
    exact (h k (by simp)).append (ih (fun k' hk' => h k' (by simp [hk'])))

/-- Blocks of constant tier, concatenated along a sorted key list, give a
tier-sorted sequence. -/
theorem sorted_flatMap_blocks (ks : List Int) (f : Int → List Player)
    (hks : ks.Sorted (· ≤ ·))
    (hf : ∀ k ∈ ks, ∀ p ∈ f k, p.set_no = k) :
    ((ks.flatMap f).map (fun p => p.set_no)).Sorted (· ≤ ·) := by
  rw [List.map_flatMap, List.flatMap_def]
  show ((ks.map fun k => (f k).map (fun p => p.set_no)).flatten).Pairwise (· ≤ ·)
  apply List.pairwise_flatten.mpr
  refine ⟨?_, ?_⟩
  · intro l hl
    obtain ⟨k, hk, rfl⟩ := List.mem_map.mp hl
    apply List.pairwise_of_forall_mem_list
    intro a ha b hb
    obtain ⟨pa, hpa, rfl⟩ := List.mem_map.mp ha
    obtain ⟨pb, hpb, rfl⟩ := List.mem_map.mp hb
    rw [hf k hk pa hpa, hf k hk pb hpb]
  · apply List.pairwise_map.mpr
    apply List.Pairwise.imp_of_mem ?_ hks
    intro k1 k2 hk1 hk2 hle x hx y hy
    obtain ⟨px, hpx, rfl⟩ := List.mem_map.mp hx
    obtain ⟨py, hpy, rfl⟩ := List.mem_map.mp hy
    rw [hf k1 hk1 px hpx, hf k2 hk2 py hpy]
    exact hle

/-- C5: on a non-empty catalog, starting the auction produces an order that
lists the ids of a permutation of the catalog in which tier (set) numbers are
ascending — tiers concatenated in sorted order, each tier permuted by the
shuffle — and leaves the session started at position 0 with no bid; on an
empty catalog it fails with `EmptyCatalog` ("No players loaded") and the
state is unchanged. -/
theorem C5_order_builder (s : AppState) (sh : List Player → List Player)
    (hsh : ∀ l : List Player, (sh l).Perm l) :
    (s.players ≠ [] → ∃ (s2 : AppState) (plist : List Player),
      start_auction s true sh = .ok s2 ∧
      applyOp (.startAuction sh) s = s2 ∧
      s2.auction_order = plist.map (fun p => p.id) ∧
      plist.Perm (s.players.map (fun e => e.2)) ∧
      s2.auction_order.Perm ((s.players.map (fun e => e.2)).map (fun p => p.id)) ∧
      (plist.map (fun p => p.set_no)).Sorted (· ≤ ·) ∧
      s2.auction_started = true ∧ s2.current_index = 0 ∧
      s2.current_bid = none) ∧
    (s.players = [] →
      start_auction s true sh = .error .EmptyCatalog ∧
      applyOp (.startAuction sh) s = s) := by
  constructor
  · intro hne
    have hne' : s.players.map (fun e => e.2) ≠ [] := by
      intro hc
      exact hne (List.map_eq_nil_iff.mp hc)
    have h1 : start_auction s true sh = .ok (build_auction_order sh s) := by
      unfold start_auction
      rw [if_neg (by decide : ¬ (true = false)), if_neg hne]
    have h2 : applyOp (.startAuction sh) s = build_auction_order sh s := by
      simp only [applyOp, h1, orState]
    have hfields := @build_auction_order_fields sh s hne
    have hnd : (((s.players.map (fun e => e.2)).map (fun p => p.set_no)).dedup.insertionSort (· ≤ ·)).Nodup :=
      (List.perm_insertionSort _ _).symm.nodup (List.nodup_dedup _)
    have hcov : ∀ p ∈ s.players.map (fun e => e.2),
        p.set_no ∈ ((s.players.map (fun e => e.2)).map (fun p => p.set_no)).dedup.insertionSort (· ≤ ·) := by
      intro p hp
      apply (List.perm_insertionSort _ _).mem_iff.mpr
      apply List.mem_dedup.mpr
      exact List.mem_map.mpr ⟨p, hp, rfl⟩
    have hperm : ((((s.players.map (fun e => e.2)).map (fun p => p.set_no)).dedup.insertionSort (· ≤ ·)).flatMap
        (fun k => sh ((s.players.map (fun e => e.2)).filter (fun p => p.set_no = k)))).Perm
        (s.players.map (fun e => e.2)) := by
      have ha := flatMap_perm_of_forall
        (((s.players.map (fun e => e.2)).map (fun p => p.set_no)).dedup.insertionSort (· ≤ ·))
        (fun k => sh ((s.players.map (fun e => e.2)).filter (fun p => p.set_no = k)))
        (fun k => (s.players.map (fun e => e.2)).filter (fun p => p.set_no = k))
        (fun k _ => hsh _)
      exact ha.trans (flatMap_filter_perm _ _ hnd hcov)
    have hsorted : (((((s.players.map (fun e => e.2)).map (fun p => p.set_no)).dedup.insertionSort (· ≤ ·)).flatMap
        (fun k => sh ((s.players.map (fun e => e.2)).filter (fun p => p.set_no = k)))).map (fun p => p.set_no)).Sorted (· ≤ ·) := by
      apply sorted_flatMap_blocks
      · exact List.sorted_insertionSort _ _
      · intro k hk p hp
        have hmem := (hsh _).mem_iff.mp hp
        have := (List.mem_filter.mp hmem).2
        exact of_decide_eq_true this
    have h3 : (build_auction_order sh s).auction_order =
        (((((s.players.map (fun e => e.2)).map (fun p => p.set_no)).dedup.insertionSort (· ≤ ·)).flatMap
          (fun k => sh ((s.players.map (fun e => e.2)).filter (fun p => p.set_no = k))))).map (fun p => p.id) := by
      rw [hfields]
      show _ = List.map _ (List.flatMap _ _)
      rw [List.map_flatMap]
    refine ⟨build_auction_order sh s,
      ((((s.players.map (fun e => e.2)).map (fun p => p.set_no)).dedup.insertionSort (· ≤ ·)).flatMap
        (fun k => sh ((s.players.map (fun e => e.2)).filter (fun p => p.set_no = k)))),
      h1, h2, h3, hperm, ?_, hsorted, ?_, ?_, ?_⟩
    · rw [h3]
      exact hperm.map _
    · rw [hfields]
    · rw [hfields]
    · rw [hfields]
  · intro hempty
    have h1 : start_auction s true sh = .error .EmptyCatalog := by
      unfold start_auction
      rw [if_neg (by decide : ¬ (true = false)), if_pos hempty]
    exact ⟨h1, by simp only [applyOp, h1, orState]⟩

/-- C5 witness: starting on the concrete one-player catalog leaves the
session live at position 0 with no bid, and the order is a permutation of the
catalog's ids. -/
theorem C5_witness :
    startedState.auction_started = true ∧ startedState.current_index = 0 ∧
    startedState.current_bid = none ∧
    startedState.auction_order.Perm ((reloadedState.players.map (fun e => e.2)).map (fun p => p.id)) := by
  obtain ⟨s2, plist, h1, h2, h3, h4, h5, h6, h7, h8, h9⟩ :=
    (C5_order_builder reloadedState id (fun l => List.Perm.refl l)).1 (by decide)
  have he : s2 = startedState := h2.symm
  subst he
  exact ⟨h7, h8, h9, h5⟩

/-! ### Claim C4: the outcome-sum / purse-debit equation -/

/-- Sum of recorded outcome prices won by franchise `n` (list form). -/
def soldSumL (l : List (Nat × SoldInfo)) (n : String) : ℚ :=
  ((l.filter (fun e => e.2.team_name = some n)).map (fun e => e.2.price_cr)).sum

/-- Sum of recorded outcome prices won by franchise `n`. -/
def soldSum (s : AppState) (n : String) : ℚ := soldSumL s.sold_players n

/-- The equation claimed invariant: for every franchise, the outcome prices it
won sum to its spent purse. -/
def PurseInv (s : AppState) : Prop :=
  ∀ n t, dictGet n s.teams = some t →
    soldSum s n = t.purse_total - t.purse_remaining

/-- Every `TEAMS` entry's stored name equals its key. -/
def NameKey (s : AppState) : Prop :=
  ∀ n t, dictGet n s.teams = some t → t.name = n

theorem soldSumL_append (l1 l2 : List (Nat × SoldInfo)) (n : String) :
    soldSumL (l1 ++ l2) n = soldSumL l1 n + soldSumL l2 n := by
  unfold soldSumL
  rw [List.filter_append, List.map_append, List.sum_append]

theorem soldSumL_single (pid : Nat) (info : SoldInfo) (n : String) :
    soldSumL [(pid, info)] n =
      if info.team_name = some n then info.price_cr else 0 := by
  by_cases h : info.team_name = some n
  · simp [soldSumL, h]
  · simp [soldSumL, h]

/-- A property holding of every entry of a dict holds of every lookup. -/
theorem dictGet_prop {α β : Type} [DecidableEq α] {P : α → β → Prop}
    {d : List (α × β)} (hd : ∀ e ∈ d, P e.1 e.2) {n : α} {v : β}
    (h : dictGet n d = some v) : P n v := by
  induction d with
  | nil => simp [dictGet] at h
  | cons e rest ih =>
    simp only [dictGet] at h
    by_cases he : e.1 = n
    · rw [if_pos he] at h
      injection h with hv
      subst hv
      have hp := hd e (by simp)
      rwa [he] at hp
    · rw [if_neg he] at h
      exact ih (fun e' he' => hd e' (by simp [he'])) h

/-- `dictModify` with a name-preserving function preserves `NameKey`-style
lookups. -/
theorem nameKey_dictModify {k : String} {f : Team → Team}
    {teams : List (String × Team)} (hf : ∀ t, (f t).name = t.name)
    (h : ∀ n t, dictGet n teams = some t → t.name = n) :
    ∀ n t, dictGet n (dictModify k f teams) = some t → t.name = n := by
  intro n t ht
  rw [dictGet_dictModify] at ht
  by_cases hn : n = k
  · rw [if_pos hn] at ht
    obtain ⟨t0, h0, hg⟩ := Option.map_eq_some'.mp ht
    subst hg
    rw [hf t0]
    exact h n t0 h0
  · rw [if_neg hn] at ht
    exact h n t ht

theorem reachable_nameKey {s : AppState} (h : Reachable s) : NameKey s := by
  induction h with
  | init =>
    intro n t ht
    refine @dictGet_prop String Team _ (fun k tv => tv.name = k) initState.teams ?_ n t ht
    intro e he
    have he' : e ∈ init_teams_list := he
    unfold init_teams_list at he'
    obtain ⟨nt, hnt, rfl⟩ := List.mem_map.mp he'
    rfl
  | step o s hr ih =>
    cases o with
    | selectTeam sess tn dn =>
      simp only [applyOp]
      cases hst : select_team s sess tn dn with
      | error e => exact ih
      | ok s2 =>
        obtain ⟨-, teams2, hs2, hcorr⟩ := select_team_ok hst
        subst hs2
        intro n t ht
        obtain ⟨t0, h0, hname, -, -, -⟩ := hcorr n t ht
        rw [hname]
        exact ih n t0 h0
    | unselectTeam sess =>
      simp only [applyOp]
      cases hst : unselect_team s sess with
      | error e => exact ih
      | ok s2 =>
        obtain ⟨-, teams2, hs2, hcorr⟩ := unselect_team_ok hst
        subst hs2
        intro n t ht
        obtain ⟨t0, h0, hname, -, -, -⟩ := hcorr n t ht
        rw [hname]
        exact ih n t0 h0
    | editPurse tn v =>
      simp only [applyOp]
      cases hst : edit_purse s true tn v with
      | error e => exact ih
      | ok s2 =>
        have hs2 := edit_purse_ok hst
        subst hs2
        exact nameKey_dictModify (fun t => rfl) ih
    | reload recs => exact fun n t ht => ih n t ht
    | startAuction sh =>
      simp only [applyOp]
      cases hst : start_auction s true sh with
      | error e => exact ih
      | ok s2 =>
        obtain ⟨hne, hs2⟩ := start_auction_ok hst
        subst hs2
        rw [build_auction_order_fields hne]
        exact fun n t ht => ih n t ht
    | placeBid sess amt =>
      simp only [applyOp]
      cases hst : place_bid s sess amt with
      | error e => exact ih
      | ok s2 =>
        obtain ⟨team, player, -, -, -, -, -, -, -, hs2⟩ := place_bid_ok hst
        subst hs2
        exact fun n t ht => ih n t ht
    | sellPlayer =>
      simp only [applyOp]
      cases hst : sell_player s true with
      | error e => exact ih
      | ok s2 =>
        obtain ⟨player, bid, team, -, -, -, -, hs2⟩ := sell_player_ok hst
        subst hs2
        exact nameKey_dictModify (fun t => rfl) ih
    | unsoldPlayer =>
      simp only [applyOp]
      cases hst : unsold_player s true with
      | error e => exact ih
      | ok s2 =>
        obtain ⟨player, -, -, hs2⟩ := unsold_player_ok hst
        subst hs2
        exact fun n t ht => ih n t ht
    | nextPlayer =>
      simp only [applyOp]
      cases hst : next_player s true with
      | error e => exact ih
      | ok s2 =>
        obtain ⟨-, hs2⟩ := next_player_ok hst
        subst hs2
        exact fun n t ht => ih n t ht
    | endAuction =>
      simp only [applyOp]
      cases hst : end_auction s true with
      | error e => exact ih
      | ok s2 =>
        have hs2 := end_auction_ok hst
        subst hs2
        exact fun n t ht => ih n t ht

/-- The restricted protocol under which the purse equation is an invariant:
no purse edit after the auction has started or once an outcome exists, no
catalog reload once an outcome exists, and no sale or unsold marking of a
player who already has an outcome entry. -/
def cleanStep (s : AppState) : Op → Prop
  | .editPurse _ _ => s.auction_started = false ∧ s.sold_players = []
  | .reload _ => s.sold_players = []
  | .sellPlayer => ∀ p, get_current_player s = some p → dictGet p.id s.sold_players = none
  | .unsoldPlayer => ∀ p, get_current_player s = some p → dictGet p.id s.sold_players = none
  | _ => True

/-- States reachable through the restricted protocol. -/
inductive CleanReach : AppState → Prop
  | init : CleanReach initState
  | step (o : Op) (s : AppState) : CleanReach s → cleanStep s o →
      CleanReach (applyOp o s)

theorem cleanReach_reachable {s : AppState} (h : CleanReach s) : Reachable s := by
  induction h with
  | init => exact Reachable.init
  | step o s h hc ih => exact Reachable.step o s ih

/-- `PurseInv` transports along operations that touch neither the team table
nor the outcome map (up to purse-preserving team rewrites). -/
theorem purseInv_congr {s s2 : AppState} (hts : s2.teams = s.teams)
    (hss : s2.sold_players = s.sold_players) (h : PurseInv s) : PurseInv s2 := by
  intro n t ht
  rw [hts] at ht
  unfold soldSum
  rw [hss]
  exact h n t ht

/-- C4 (amended): for every franchise F, `sum(outcome.price where winner = F)
= F.total − F.remaining` holds in every state reachable by core operations
under the restricted protocol `CleanReach`: purse edits only before the
auction starts and while no outcome is recorded, catalog reloads only while
no outcome is recorded, and no sale/unsold resolution that overwrites an
existing outcome entry. (Outside the protocol the equation fails; see the
counterexample.) -/
theorem C4_amended_purse_equation {s : AppState} (h : CleanReach s) :
    PurseInv s := by
  induction h with
  | init =>
    intro n t ht
    have hp := @dictGet_prop String Team _
      (fun k tv => tv.purse_total = tv.purse_remaining) initState.teams ?_ n t ht
    · show soldSumL [] n = t.purse_total - t.purse_remaining
      rw [hp]
      show (0 : ℚ) = t.purse_remaining - t.purse_remaining
      rw [sub_self]
    · intro e he
      have he' : e ∈ init_teams_list := he
      unfold init_teams_list at he'
      obtain ⟨nt, hnt, rfl⟩ := List.mem_map.mp he'
      rfl
  | step o s h hc ih =>
    have hreach := cleanReach_reachable h
    have hnk := reachable_nameKey hreach
    cases o with
    | selectTeam sess tn dn =>
      simp only [applyOp]
      cases hst : select_team s sess tn dn with
      | error e => exact ih
      | ok s2 =>
        obtain ⟨-, teams2, hs2, hcorr⟩ := select_team_ok hst
        subst hs2
        intro n t ht
        obtain ⟨t0, h0, -, htot, hrem, -⟩ := hcorr n t ht
        have := ih n t0 h0
        unfold soldSum at this ⊢
        rw [htot, hrem]
        exact this
    | unselectTeam sess =>
      simp only [applyOp]
      cases hst : unselect_team s sess with
      | error e => exact ih
      | ok s2 =>
        obtain ⟨-, teams2, hs2, hcorr⟩ := unselect_team_ok hst
        subst hs2
        intro n t ht
        obtain ⟨t0, h0, -, htot, hrem, -⟩ := hcorr n t ht
        have := ih n t0 h0
        unfold soldSum at this ⊢
        rw [htot, hrem]
        exact this
    | editPurse tn v =>
      obtain ⟨hnst, hsold⟩ := hc
      simp only [applyOp]
      cases hst : edit_purse s true tn v with
      | error e => exact ih
      | ok s2 =>
        have hs2 := edit_purse_ok hst
        subst hs2
        intro n t ht
        simp only [orState] at ht ⊢
        rw [dictGet_dictModify] at ht
        have hzero : soldSum s n = 0 := by
          unfold soldSum
          rw [hsold]
          rfl
        have hzero2 : soldSumL s.sold_players n = 0 := hzero
        by_cases hn : n = tn
        · rw [if_pos hn] at ht
          obtain ⟨t0, h0, hg⟩ := Option.map_eq_some'.mp ht
          subst hg
          show soldSumL s.sold_players n = _
          rw [hzero2]
          dsimp only
          rw [hnst]
          show (0 : ℚ) = v - v
          rw [sub_self]
        · rw [if_neg hn] at ht
          exact ih n t ht
    | reload recs =>
      have hsold : s.sold_players = [] := hc
      intro n t ht
      have ht' : dictGet n s.teams = some t := ht
      have := ih n t ht'
      show soldSumL [] n = _
      unfold soldSum at this
      rw [hsold] at this
      exact this
    | startAuction sh =>
      simp only [applyOp]
      cases hst : start_auction s true sh with
      | error e => exact ih
      | ok s2 =>
        obtain ⟨hne, hs2⟩ := start_auction_ok hst
        subst hs2
        rw [build_auction_order_fields hne]
        exact purseInv_congr rfl rfl ih
    | placeBid sess amt =>
      simp only [applyOp]
      cases hst : place_bid s sess amt with
      | error e => exact ih
      | ok s2 =>
        obtain ⟨team, player, -, -, -, -, -, -, -, hs2⟩ := place_bid_ok hst
        subst hs2
        exact purseInv_congr rfl rfl ih
    | sellPlayer =>
      simp only [applyOp]
      cases hst : sell_player s true with
      | error e => exact ih
      | ok s2 =>
        obtain ⟨player, bid, team, hst1, hgp, hbid, hteam, hs2⟩ := sell_player_ok hst
        have hfresh : dictGet player.id s.sold_players = none := hc player hgp
        have hname : team.name = bid.team_name := hnk _ _ hteam
        subst hs2
        intro n t ht
        simp only [orState] at ht ⊢
        rw [dictGet_dictModify] at ht
        show soldSumL (dictSet player.id ⟨player.full_name, some team.name, bid.amount⟩ s.sold_players) n = _
        rw [dictSet_of_get_none _ hfresh, soldSumL_append, soldSumL_single]
        by_cases hn : n = bid.team_name
        · rw [if_pos hn] at ht
          obtain ⟨t0, h0, hg⟩ := Option.map_eq_some'.mp ht
          subst hg
          have hinv := ih n t0 h0
          unfold soldSum at hinv
          dsimp only
          rw [if_pos (by rw [hname, hn])]
          rw [hinv]
          ring
        · rw [if_neg hn] at ht
          have hinv := ih n t ht
          unfold soldSum at hinv
          rw [if_neg (by intro hcn; injection hcn with hcn2; exact hn ((hname ▸ hcn2) ▸ rfl))]
          rw [add_zero]
          exact hinv
    | unsoldPlayer =>
      simp only [applyOp]
      cases hst : unsold_player s true with
      | error e => exact ih
      | ok s2 =>
        obtain ⟨player, hst1, hgp, hs2⟩ := unsold_player_ok hst
        have hfresh : dictGet player.id s.sold_players = none := hc player hgp
        subst hs2
        intro n t ht
        show soldSumL (dictSet player.id ⟨player.full_name, none, 0⟩ s.sold_players) n = _
        rw [dictSet_of_get_none _ hfresh, soldSumL_append, soldSumL_single]
        rw [if_neg (by intro hcn; exact Option.noConfusion hcn)]
        rw [add_zero]
        have hinv := ih n t ht
        unfold soldSum at hinv
        exact hinv
    | nextPlayer =>
      simp only [applyOp]
      cases hst : next_player s true with
      | error e => exact ih
      | ok s2 =>
        obtain ⟨-, hs2⟩ := next_player_ok hst
        subst hs2
        exact purseInv_congr rfl rfl ih
    | endAuction =>
      simp only [applyOp]
      cases hst : end_auction s true with
      | error e => exact ih
      | ok s2 =>
        have hs2 := end_auction_ok hst
        subst hs2
        exact purseInv_congr rfl rfl ih

theorem reachable_soldState : Reachable soldState := by
  have h3 : Reachable bidStateX := by
    show Reachable { startedState with current_bid := some ⟨1, "CSK", 2⟩ }
    rw [← bidState_eval]
    exact reachable_bidState
  have h4 := Reachable.step .sellPlayer bidStateX h3
  have h5 : applyOp .sellPlayer bidStateX = soldState := by
    show orState (sell_player bidStateX true) bidStateX = soldState
    rw [sell_player_bidStateX]
    rfl
  rw [← h5]
  exact h4

/-- Reloading the catalog right after the CSK sale. -/
def cexC4 : AppState := applyOp (.reload [p1rec]) soldState

/-- C4 counterexample: after selling player 1 to CSK for 2.0 and then
reloading the catalog, the outcome map is empty while CSK's purse is still
debited by 2.0 — the claimed equation fails in a reachable state. -/
theorem C4_counterexample :
    Reachable cexC4 ∧ ¬ PurseInv cexC4 := by
  constructor
  · exact Reachable.step (.reload [p1rec]) soldState reachable_soldState
  · intro hinv
    have h := hinv "CSK" ⟨"CSK", 100, 100 - 2, none, [1]⟩ rfl
    have h0 : soldSum cexC4 "CSK" = 0 := rfl
    rw [h0] at h
    norm_num at h

theorem cleanReach_soldState : CleanReach soldState := by
  have h1 : CleanReach reloadedState :=
    CleanReach.step (.reload [p1rec]) initState CleanReach.init rfl
  have h2 : CleanReach startedState :=
    CleanReach.step (.startAuction id) reloadedState h1 trivial
  have h3 : CleanReach bidState :=
    CleanReach.step (.placeBid (some "CSK") 2) startedState h2 trivial
  have h3x : CleanReach bidStateX := by
    show CleanReach { startedState with current_bid := some ⟨1, "CSK", 2⟩ }
    rw [← bidState_eval]
    exact h3
  have h4 := CleanReach.step .sellPlayer bidStateX h3x (fun p hp => rfl)
  have h5 : applyOp .sellPlayer bidStateX = soldState := by
    show orState (sell_player bidStateX true) bidStateX = soldState
    rw [sell_player_bidStateX]
    rfl
  rw [← h5]
  exact h4

/-- C4 witness: in the protocol-respecting run that sells player 1 to CSK at
2.0 crore, CSK's outcome sum equals its spent purse. -/
theorem C4_witness :
    soldSum soldState "CSK" =
      (⟨"CSK", 100, 100 - 2, none, [1]⟩ : Team).purse_total -
      (⟨"CSK", 100, 100 - 2, none, [1]⟩ : Team).purse_remaining :=
  C4_amended_purse_equation cleanReach_soldState "CSK"
    ⟨"CSK", 100, 100 - 2, none, [1]⟩ rfl

/-! ### Claim C6 -/

/-- C6 (amended): across every core operation, a franchise's remaining purse
either stays unchanged, decreases by the (positive) sale price when the sale
is confirmed with that franchise leading, or is reset — together with the
total — to the administrator's edited value when the edit happens before the
auction starts; the total purse, in contrast, is editable at any time (a
mid-auction edit rewrites the total while leaving the remaining purse
untouched), so `0 ≤ remaining ≤ total` is not an invariant. -/
theorem C6_amended_purse_changes {s : AppState} (hs : Reachable s) (o : Op)
    (n : String) (t t2 : Team)
    (ht : dictGet n s.teams = some t)
    (ht2 : dictGet n (applyOp o s).teams = some t2) :
    (t2.purse_remaining = t.purse_remaining ∨
      (∃ b : Bid, o = .sellPlayer ∧ s.current_bid = some b ∧ b.team_name = n ∧
        0 < b.amount ∧ t2.purse_remaining = t.purse_remaining - b.amount) ∨
      (∃ v : ℚ, o = .editPurse n v ∧ s.auction_started = false ∧
        t2.purse_remaining = v ∧ t2.purse_total = v)) ∧
    (t2.purse_total = t.purse_total ∨
      ∃ v : ℚ, o = .editPurse n v ∧ t2.purse_total = v) := by
  cases o with
  | selectTeam sess tn dn =>
    revert ht2
    simp only [applyOp]
    cases hst : select_team s sess tn dn with
    | error e =>
      intro ht2
      have ht3 : dictGet n s.teams = some t2 := ht2
      rw [ht] at ht3
      injection ht3 with he
      subst he
      exact ⟨Or.inl rfl, Or.inl rfl⟩
    | ok s2 =>
      intro ht2
      obtain ⟨-, teams2, hs2, hcorr⟩ := select_team_ok hst
      subst hs2
      obtain ⟨t0, h0, -, htot, hrem, -⟩ := hcorr n t2 ht2
      rw [ht] at h0
      injection h0 with he
      subst he
      exact ⟨Or.inl hrem, Or.inl htot⟩
  | unselectTeam sess =>
    revert ht2
    simp only [applyOp]
    cases hst : unselect_team s sess with
    | error e =>
      intro ht2
      have ht3 : dictGet n s.teams = some t2 := ht2
      rw [ht] at ht3
      injection ht3 with he
      subst he
      exact ⟨Or.inl rfl, Or.inl rfl⟩
    | ok s2 =>
      intro ht2
      obtain ⟨-, teams2, hs2, hcorr⟩ := unselect_team_ok hst
      subst hs2
      obtain ⟨t0, h0, -, htot, hrem, -⟩ := hcorr n t2 ht2
      rw [ht] at h0
      injection h0 with he
      subst he
      exact ⟨Or.inl hrem, Or.inl htot⟩
  | editPurse tn v =>
    revert ht2
    simp only [applyOp]
    cases hst : edit_purse s true tn v with
    | error e =>
      intro ht2
      have ht3 : dictGet n s.teams = some t2 := ht2
      rw [ht] at ht3
      injection ht3 with he
      subst he
      exact ⟨Or.inl rfl, Or.inl rfl⟩
    | ok s2 =>
      intro ht2
      have hs2 := edit_purse_ok hst
      subst hs2
      have ht3 : dictGet n (dictModify tn (fun tt => { tt with purse_total := v, purse_remaining := if s.auction_started then tt.purse_remaining else v }) s.teams) = some t2 := ht2
      rw [dictGet_dictModify] at ht3
      by_cases hn : n = tn
      · rw [if_pos hn] at ht3
        obtain ⟨t0, h0, hg⟩ := Option.map_eq_some'.mp ht3
        rw [ht] at h0
        injection h0 with he
        subst he
        subst hg
        cases hstarted : s.auction_started with
        | false =>
          exact ⟨Or.inr (Or.inr ⟨v, by rw [hn], rfl, rfl, rfl⟩),
                 Or.inr ⟨v, by rw [hn], rfl⟩⟩
        | true =>
          exact ⟨Or.inl rfl, Or.inr ⟨v, by rw [hn], rfl⟩⟩
      · rw [if_neg hn] at ht3
        rw [ht] at ht3
        injection ht3 with he
        subst he
        exact ⟨Or.inl rfl, Or.inl rfl⟩
  | reload recs =>
    have ht3 : dictGet n s.teams = some t2 := ht2
    rw [ht] at ht3
    injection ht3 with he
    subst he
    exact ⟨Or.inl rfl, Or.inl rfl⟩
  | startAuction sh =>
    revert ht2
    simp only [applyOp]
    cases hst : start_auction s true sh with
    | error e =>
      intro ht2
      have ht3 : dictGet n s.teams = some t2 := ht2
      rw [ht] at ht3
      injection ht3 with he
      subst he
      exact ⟨Or.inl rfl, Or.inl rfl⟩
    | ok s2 =>
      intro ht2
      obtain ⟨hne, hs2⟩ := start_auction_ok hst
      subst hs2
      rw [build_auction_order_fields hne] at ht2
      have ht3 : dictGet n s.teams = some t2 := ht2
      rw [ht] at ht3
      injection ht3 with he
      subst he
      exact ⟨Or.inl rfl, Or.inl rfl⟩
  | placeBid sess amt =>
    revert ht2
    simp only [applyOp]
    cases hst : place_bid s sess amt with
    | error e =>
      intro ht2
      have ht3 : dictGet n s.teams = some t2 := ht2
      rw [ht] at ht3
      injection ht3 with he
      subst he
      exact ⟨Or.inl rfl, Or.inl rfl⟩
    | ok s2 =>
      intro ht2
      obtain ⟨team, player, -, -, -, -, -, -, -, hs2⟩ := place_bid_ok hst
      subst hs2
      have ht3 : dictGet n s.teams = some t2 := ht2
      rw [ht] at ht3
      injection ht3 with he
      subst he
      exact ⟨Or.inl rfl, Or.inl rfl⟩
  | sellPlayer =>
    revert ht2
    simp only [applyOp]
    cases hst : sell_player s true with
    | error e =>
      intro ht2
      have ht3 : dictGet n s.teams = some t2 := ht2
      rw [ht] at ht3
      injection ht3 with he
      subst he
      exact ⟨Or.inl rfl, Or.inl rfl⟩
    | ok s2 =>
      intro ht2
      obtain ⟨player, bid, team, hst1, hgp, hbid, hteam, hs2⟩ := sell_player_ok hst
      subst hs2
      have hpos : 0 < bid.amount := ((reachable_bidOk hs) bid hbid).1
      have ht3 : dictGet n (dictModify bid.team_name (fun tt => { tt with purse_remaining := tt.purse_remaining - bid.amount, squad := tt.squad ++ [player.id] }) s.teams) = some t2 := ht2
      rw [dictGet_dictModify] at ht3
      by_cases hn : n = bid.team_name
      · rw [if_pos hn] at ht3
        obtain ⟨t0, h0, hg⟩ := Option.map_eq_some'.mp ht3
        rw [ht] at h0
        injection h0 with he
        subst he
        subst hg
        exact ⟨Or.inr (Or.inl ⟨bid, trivial, hbid, hn.symm, hpos, rfl⟩), Or.inl rfl⟩
      · rw [if_neg hn] at ht3
        rw [ht] at ht3
        injection ht3 with he
        subst he
        exact ⟨Or.inl rfl, Or.inl rfl⟩
  | unsoldPlayer =>
    revert ht2
    simp only [applyOp]
    cases hst : unsold_player s true with
    | error e =>
      intro ht2
      have ht3 : dictGet n s.teams = some t2 := ht2
      rw [ht] at ht3
      injection ht3 with he
      subst he
      exact ⟨Or.inl rfl, Or.inl rfl⟩
    | ok s2 =>
      intro ht2
      obtain ⟨player, -, -, hs2⟩ := unsold_player_ok hst
      subst hs2
      have ht3 : dictGet n s.teams = some t2 := ht2
      rw [ht] at ht3
      injection ht3 with he
      subst he
      exact ⟨Or.inl rfl, Or.inl rfl⟩
  | nextPlayer =>
    revert ht2
    simp only [applyOp]
    cases hst : next_player s true with
    | error e =>
      intro ht2
      have ht3 : dictGet n s.teams = some t2 := ht2
      rw [ht] at ht3
      injection ht3 with he
      subst he
      exact ⟨Or.inl rfl, Or.inl rfl⟩
    | ok s2 =>
      intro ht2
      obtain ⟨-, hs2⟩ := next_player_ok hst
      subst hs2
      have ht3 : dictGet n s.teams = some t2 := ht2
      rw [ht] at ht3
      injection ht3 with he
      subst he
      exact ⟨Or.inl rfl, Or.inl rfl⟩
  | endAuction =>
    revert ht2
    simp only [applyOp]
    cases hst : end_auction s true with
    | error e =>
      intro ht2
      have ht3 : dictGet n s.teams = some t2 := ht2
      rw [ht] at ht3
      injection ht3 with he
      subst he
      exact ⟨Or.inl rfl, Or.inl rfl⟩
    | ok s2 =>
      intro ht2
      have hs2 := end_auction_ok hst
      subst hs2
      have ht3 : dictGet n s.teams = some t2 := ht2
      rw [ht] at ht3
      injection ht3 with he
      subst he
      exact ⟨Or.inl rfl, Or.inl rfl⟩

/-- Mid-auction purse edit: CSK's total is set to 0 while the auction runs. -/
def cexC6 : AppState := applyOp (.editPurse "CSK" 0) startedState

/-- Pre-auction purse edit with a negative value. -/
def cexC6b : AppState := applyOp (.editPurse "MI" (-5)) initState

/-- C6 counterexample: the administrator edits CSK's purse to 0 while the
auction is live — the total changes mid-auction (the claim says purses are
editable only before the start) and the remaining purse (100) now exceeds
the total (0); a pre-start edit with value −5 likewise drives both below 0,
so `0 ≤ remaining ≤ total` fails in reachable states. -/
theorem C6_counterexample :
    (Reachable cexC6 ∧ cexC6.auction_started = true ∧
      dictGet "CSK" cexC6.teams = some ⟨"CSK", 0, 100, none, []⟩ ∧
      ¬ ((⟨"CSK", 0, 100, none, []⟩ : Team).purse_remaining ≤
          (⟨"CSK", 0, 100, none, []⟩ : Team).purse_total)) ∧
    (Reachable cexC6b ∧
      dictGet "MI" cexC6b.teams = some ⟨"MI", -5, -5, none, []⟩ ∧
      ¬ ((0 : ℚ) ≤ (⟨"MI", -5, -5, none, []⟩ : Team).purse_remaining)) := by
  refine ⟨⟨Reachable.step (.editPurse "CSK" 0) startedState reachable_startedState, rfl, rfl, ?_⟩,
          ⟨Reachable.step (.editPurse "MI" (-5)) initState Reachable.init, rfl, ?_⟩⟩
  · show ¬ ((100 : ℚ) ≤ 0)
    norm_num
  · show ¬ ((0 : ℚ) ≤ -5)
    norm_num

/-- C6 witness: instantiating the amended characterization at the initial
state and a skip request — CSK's purses are untouched. -/
theorem C6_witness :
    ((cskInit.purse_remaining = cskInit.purse_remaining ∨
      (∃ b : Bid, Op.nextPlayer = Op.sellPlayer ∧ initState.current_bid = some b ∧
        b.team_name = "CSK" ∧ 0 < b.amount ∧
        cskInit.purse_remaining = cskInit.purse_remaining - b.amount) ∨
      (∃ v : ℚ, Op.nextPlayer = Op.editPurse "CSK" v ∧
        initState.auction_started = false ∧
        cskInit.purse_remaining = v ∧ cskInit.purse_total = v)) ∧
     (cskInit.purse_total = cskInit.purse_total ∨
      ∃ v : ℚ, Op.nextPlayer = Op.editPurse "CSK" v ∧ cskInit.purse_total = v)) :=
  C6_amended_purse_changes Reachable.init .nextPlayer "CSK" cskInit cskInit rfl rfl

end AuctionApp
